import Mathlib

/-!
# Verification of the ensemble recommendation aggregator

Shallow embedding of `src/ensemble_api.py` (functions `_call_reco_api`,
`_normalize_similarity_by_model`, `get_ensemble_recommendations`) and proofs
about it.

Modelling conventions:

* Python `float` similarity scores are modelled as `ℚ`.  All raw scores,
  normalized scores, weights and final scores are exact rationals.
* A decoded JSON item record is a `Rec`.  Each of the five fields that
  `_call_reco_api` expects as DataFrame columns is an `Option`; `none` models
  the field being absent from that record (a pandas `NaN` cell).  A DataFrame
  column exists iff at least one record carries the field, which is exactly
  what `expected_cols - set(df.columns)` tests.
* The HTTP layer is abstracted by a function `resp : String → Body` giving the
  decoded JSON body returned by each URL.  `playlist_ids`, `top_k` and
  `timeout` only shape the outgoing request payload and never influence the
  local computation, so they are not parameters of the embedding.
* Python `dict`s (`api_urls`, `weights`, JSON objects) are association lists in
  insertion order; Python guarantees their keys are unique.
* `df.groupby(key)` sorts the group keys ascending (pandas default
  `sort=True`) and keeps the original relative order of the rows inside each
  group; `sorted(set(xs))` is `dedupSortStr`.  Python compares strings by code
  points; the built-in `String` order of Lean does not reduce in the kernel,
  so the same code-point order is implemented here on `List ℕ` keys.
* `df.sort_values(col, ascending=False)` (pandas `nargsort`) reverses the
  column, takes an ascending argsort with numpy's default sort, and reverses
  the resulting indexer; the ascending sort is modelled as an insertion sort.
  numpy's default introsort is stable only for slices of at most 16 elements,
  so the modelled order of rows with equal scores is exact only for such
  tables; the theorems below use the sort only through facts that do not
  depend on the tie order.
* Exceptions (`ValueError`) are an `Except ApiError` result; the `ApiError`
  constructors correspond to the three `raise` sites of the Python file.
-/

/-- A raw item record decoded from a source's JSON response, before any
validation.  `none` in a field means the record does not carry that key
(pandas turns it into `NaN` in the corresponding column). -/
structure Rec where
  title : Option String
  author : Option String
  description : Option String
  isbn : Option String
  similarity : Option ℚ
deriving DecidableEq

/-- A JSON value sitting under a key of an object response body: a list of
item records, or a scalar (string / number).  `_call_reco_api` only ever asks
whether such a value `isinstance(..., list)`, or flattens scalars via
`pd.json_normalize`. -/
inductive JVal where
  | jarr : List Rec → JVal
  | jstr : String → JVal
  | jnum : ℚ → JVal
deriving DecidableEq

/-- A decoded JSON response body: a list of item records, an object
(association list, unique keys, insertion order), or any other JSON type
(string, number, ...), which `_call_reco_api` rejects outright. -/
inductive Body where
  | jlist : List Rec → Body
  | jdict : List (String × JVal) → Body
  | jother : Body
deriving DecidableEq

/-- The `ValueError`s raised by `ensemble_api.py`:
`emptyApiUrls` for `"api_urls ne doit pas être vide."` (line 103),
`unexpectedFormat` for `"Format de réponse inattendu pour {model_name}"`
(line 34), and `missingColumns` for
`"Colonnes manquantes dans la réponse de {model_name}: {missing}"`
(line 39). -/
inductive ApiError where
  | emptyApiUrls : ApiError
  | unexpectedFormat : String → ApiError
  | missingColumns : String → List String → ApiError
deriving DecidableEq

/-- One row of a per-source DataFrame after `df["model"] = model_name`:
the five expected columns plus the tagging `model` column. -/
structure Row where
  title : Option String
  author : Option String
  description : Option String
  isbn : Option String
  similarity : Option ℚ
  model : String
deriving DecidableEq

/-- `df["model"] = model_name` applied to one record. -/
def recToRow (model : String) (r : Rec) : Row :=
  ⟨r.title, r.author, r.description, r.isbn, r.similarity, model⟩

/-- `expected_cols - set(df.columns)` for a list-of-records body: a column
exists iff at least one record carries the field, so a required column is
missing iff every record lacks it.  (For the empty list, `pd.DataFrame([])`
has no columns at all, so all five are missing.)  The order of the five
names mirrors the declaration order of the fields; only emptiness of this
list is ever branched on. -/
def missingCols (recs : List Rec) : List String :=
  (if recs.any fun r => r.title.isSome then [] else ["title"]) ++
    (if recs.any fun r => r.author.isSome then [] else ["author"]) ++
      (if recs.any fun r => r.description.isSome then [] else ["description"]) ++
        (if recs.any fun r => r.isbn.isSome then [] else ["isbn"]) ++
          (if recs.any fun r => r.similarity.isSome then [] else ["similarity"])

/-- Lines 36–45 of `ensemble_api.py`: raise if a required column is missing
from the whole table, otherwise keep the expected columns of every row
(`df[list(expected_cols)].copy()`) and tag them with the model name. -/
def validateCols (model : String) (recs : List Rec) : Except ApiError (List Row) :=
  if missingCols recs = [] then .ok (recs.map (recToRow model))
  else .error (.missingColumns model (missingCols recs))

/-- The wrapper keys probed, in order, on an object body (line 27). -/
def wrapperKeys : List String :=
  ["results", "recommendations", "books", "items"]

/-- The `for key in [...]` loop of lines 27–30: the first wrapper key that is
present in the object and holds a list wins (`break`); `none` means the loop
fell through to its `else` clause. -/
def findWrapped (d : List (String × JVal)) : Option (List Rec) :=
  wrapperKeys.findSome? fun k =>
    match d.lookup k with
    | some (JVal.jarr recs) => some recs
    | _ => none

/-- Scalar string lookup used to model `pd.json_normalize(data)`: the
single-row frame has a usable column for a key iff the key holds a scalar of
the right shape.  (A required key holding a list would survive the column
check in pandas but break downstream; no claim exercises that corner, and it
is modelled as an absent field.) -/
def lookupStr (d : List (String × JVal)) (k : String) : Option String :=
  match d.lookup k with
  | some (JVal.jstr s) => some s
  | _ => none

/-- Scalar numeric lookup for `pd.json_normalize(data)`, see `lookupStr`. -/
def lookupNum (d : List (String × JVal)) (k : String) : Option ℚ :=
  match d.lookup k with
  | some (JVal.jnum q) => some q
  | _ => none

/-- `pd.json_normalize(data)` on an object without a usable wrapper key
(line 32): the object itself is flattened into a single record. -/
def jsonNormalizeRec (d : List (String × JVal)) : Rec :=
  ⟨lookupStr d "title", lookupStr d "author", lookupStr d "description",
    lookupStr d "isbn", lookupNum d "similarity"⟩

/-- `_call_reco_api` (lines 8–46), with the HTTP exchange abstracted away:
its parsing and validation of a decoded response body. -/
def call_reco_api (model : String) (body : Body) : Except ApiError (List Row) :=
  match body with
  | .jlist recs => validateCols model recs
  | .jdict d =>
      match findWrapped d with
      | some recs => validateCols model recs
      | none => validateCols model [jsonNormalizeRec d]
  | .jother => .error (.unexpectedFormat model)

/-! ## Code-point string order

Python's `sorted` compares strings lexicographically by code points.  The
comparison is implemented on the lists of code points so that it reduces in
the kernel. -/

/-- Strict lexicographic order on code-point lists. -/
def natListLtb : List ℕ → List ℕ → Bool
  | [], [] => false
  | [], _ :: _ => true
  | _ :: _, [] => false
  | a :: as, b :: bs => if a < b then true else if b < a then false else natListLtb as bs

/-- The code points of a string. -/
def strKey (s : String) : List ℕ :=
  s.data.map Char.toNat

/-- Strict code-point order on strings (Python `<` on `str`). -/
def sLT (a b : String) : Prop :=
  natListLtb (strKey a) (strKey b) = true

/-- Code-point order on strings (Python `<=` on `str`). -/
def sLE (a b : String) : Prop :=
  natListLtb (strKey b) (strKey a) = false

instance : DecidableRel sLT := fun a b =>
  inferInstanceAs (Decidable (_ = true))

instance : DecidableRel sLE := fun a b =>
  inferInstanceAs (Decidable (_ = false))

/-- Python's `sorted(set(xs))` for strings: distinct values in ascending
code-point order.  This is also the order in which `df.groupby(key)`
(default `sort=True`) arranges its groups. -/
def dedupSortStr (l : List String) : List String :=
  List.insertionSort sLE l.dedup

/-! ## `_normalize_similarity_by_model` (lines 49–68) -/

/-- One normalized row: the input row plus the `similarity_norm` column. -/
structure NRow extends Row where
  similarity_norm : Option ℚ
deriving DecidableEq

/-- Folded minimum of a list of rationals (`none` on the empty list). -/
def minFold (l : List ℚ) : Option ℚ :=
  l.foldr (fun x m => match m with | none => some x | some y => some (min x y)) none

/-- Folded maximum of a list of rationals (`none` on the empty list). -/
def maxFold (l : List ℚ) : Option ℚ :=
  l.foldr (fun x m => match m with | none => some x | some y => some (max x y)) none

/-- `pd.Series.min()` with its default `skipna=True`: the minimum of the
non-null values, `none` if there are none (pandas' `NaN`, which makes every
comparison false). -/
def sMin (l : List (Option ℚ)) : Option ℚ :=
  minFold (l.filterMap id)

/-- `pd.Series.max()` with `skipna=True`, see `sMin`. -/
def sMax (l : List (Option ℚ)) : Option ℚ :=
  maxFold (l.filterMap id)

/-- The distinct model names in group order, i.e. `df.groupby("model")`'s
sorted keys. -/
def modelKeys (rows : List Row) : List String :=
  dedupSortStr (rows.map (·.model))

/-- The rows of one model's group, in their original relative order. -/
def groupRows (rows : List Row) (m : String) : List Row :=
  rows.filter fun r => r.model == m

/-- Attach the `similarity_norm` column to a row. -/
def mkNRow (r : Row) (v : Option ℚ) : NRow :=
  ⟨r, v⟩

/-- `_normalize_similarity_by_model` (lines 49–68): iterate the groups of
`df.groupby("model")` — sorted by model name — and inside each group either
rescale by `(sims - min) / (max - min)` when `max > min`, or set the whole
column to `1.0` (`pd.Series(1.0, index=...)`, which also overwrites rows
whose raw similarity is null).  When min or max is `NaN` (no non-null value)
the comparison `s_max > s_min` is false and the `else` branch runs.  The
groups are then re-concatenated in sorted-model order: the output row order
is NOT the input row order. -/
def normalize_similarity_by_model (rows : List Row) : List NRow :=
  (modelKeys rows).flatMap fun m =>
    let grp := groupRows rows m
    match sMin (grp.map (·.similarity)), sMax (grp.map (·.similarity)) with
    | some mn, some mx =>
        if mn < mx then
          grp.map fun r => mkNRow r (r.similarity.map fun s => (s - mn) / (mx - mn))
        else grp.map fun r => mkNRow r (some 1)
    | _, _ => grp.map fun r => mkNRow r (some 1)

/-- The normalized similarity a row with model `m` and raw similarity `s?`
receives, as a function of the whole table (used to state theorems; the
branches mirror `normalize_similarity_by_model` exactly). -/
def normVal (rows : List Row) (m : String) (s? : Option ℚ) : Option ℚ :=
  match sMin ((groupRows rows m).map (·.similarity)),
      sMax ((groupRows rows m).map (·.similarity)) with
  | some mn, some mx =>
      if mn < mx then s?.map fun s => (s - mn) / (mx - mn) else some 1
  | _, _ => some 1

/-! ## Weights and weighted scores (lines 122–131) -/

/-- Step 3️⃣: `weights` defaults to equal weights `1/N` over the configured
model names when not supplied. -/
def resolveWeights (weights? : Option (List (String × ℚ))) (names : List String) :
    List (String × ℚ) :=
  match weights? with
  | some w => w
  | none => names.map fun n => (n, 1 / (names.length : ℚ))

/-- `df_norm["model"].map(weights).fillna(0.0)` for one row: a model name
absent from the weights mapping gets weight `0.0`. -/
def rowWeight (w : List (String × ℚ)) (m : String) : ℚ :=
  (w.lookup m).getD 0

/-- One row of the weighted table: the `weight` and `score_weighted` columns
of lines 128 and 131.  A null normalized similarity propagates to a null
weighted score (`NaN * w = NaN`). -/
structure WRow extends NRow where
  weight : ℚ
  score_weighted : Option ℚ
deriving DecidableEq

/-- Lines 128–131 applied to one normalized row. -/
def addWeight (w : List (String × ℚ)) (nr : NRow) : WRow :=
  ⟨nr, rowWeight w nr.model, nr.similarity_norm.map fun s => s * rowWeight w nr.model⟩

/-! ## Aggregation by isbn (lines 133–145) -/

/-- `sum` aggregation with pandas' `skipna` default: null entries are
dropped, and an all-null (or empty) group sums to `0.0`. -/
def sumSkipna (l : List (Option ℚ)) : ℚ :=
  (l.filterMap id).sum

/-- `"first"` aggregation: the first non-null value of the group, if any. -/
def firstSkipna {α : Type} (l : List (Option α)) : Option α :=
  l.findSome? id

/-- One row of the aggregated `ensemble_df` (lines 134–143). -/
structure AggRow where
  isbn : String
  score_final : ℚ
  title : Option String
  author : Option String
  description : Option String
  models_contributing : List String
deriving DecidableEq

/-- The rows of one isbn's group, in table order.  `df.groupby("isbn")`
drops rows whose `isbn` is null (pandas `dropna=True`). -/
def isbnGroup (rows : List WRow) (k : String) : List WRow :=
  rows.filter fun r => r.isbn == some k

/-- The aggregated record of one isbn group (the `agg(...)` of
lines 137–143): summed weighted score, first-seen descriptive fields, and
`sorted(set(models))`. -/
def aggRowFor (rows : List WRow) (k : String) : AggRow :=
  ⟨k, sumSkipna ((isbnGroup rows k).map (·.score_weighted)),
    firstSkipna ((isbnGroup rows k).map (·.title)),
    firstSkipna ((isbnGroup rows k).map (·.author)),
    firstSkipna ((isbnGroup rows k).map (·.description)),
    dedupSortStr ((isbnGroup rows k).map (·.model))⟩

/-- `df_norm.groupby("isbn", as_index=False).agg(...)`: one output row per
distinct non-null isbn, in ascending isbn order (pandas sorts group keys). -/
def aggregateByIsbn (rows : List WRow) : List AggRow :=
  (dedupSortStr (rows.filterMap (·.isbn))).map (aggRowFor rows)

/-! ## Ranking and truncation (lines 144–148) -/

/-- The comparison used by `sort_values("score_final", ...)`. -/
def scoreLE (a b : AggRow) : Prop :=
  a.score_final ≤ b.score_final

instance : DecidableRel scoreLE := fun a b =>
  inferInstanceAs (Decidable (a.score_final ≤ b.score_final))

/-- `sort_values("score_final", ascending=False)`: pandas `nargsort`
reverses the rows, takes an ascending argsort with numpy's default sort,
and reverses the resulting order.  The underlying argsort is modelled here
by an insertion sort, which is stable; numpy's default introsort is stable
only for slices of at most 16 elements, so the tie order this model gives
rows with equal scores is exact only for such tables.  Every fact proven
below about this definition is independent of the tie order (it is used
only through permutation and length lemmas, and in concrete runs whose
aggregated tables stay far below 16 rows). -/
def sortByScoreDesc (l : List AggRow) : List AggRow :=
  (List.insertionSort scoreLE l.reverse).reverse

/-- One element of the returned JSON-like list (lines 151–162). -/
structure FinalRec where
  isbn : String
  title : Option String
  author : Option String
  description : Option String
  score_final : ℚ
  models_contributing : List String
deriving DecidableEq

/-- The row-to-dict conversion of lines 152–162. -/
def toFinalRec (a : AggRow) : FinalRec :=
  ⟨a.isbn, a.title, a.author, a.description, a.score_final, a.models_contributing⟩

/-- Steps 2️⃣–7️⃣ of `get_ensemble_recommendations`: the pure pipeline applied
to the concatenated per-source tables. -/
def pipeline (allRows : List Row) (modelNames : List String) (topKFinal : ℕ)
    (weights? : Option (List (String × ℚ))) : List FinalRec :=
  let dfNorm := normalize_similarity_by_model allRows
  let w := resolveWeights weights? modelNames
  let dfw := dfNorm.map (addWeight w)
  let ensembleDf := sortByScoreDesc (aggregateByIsbn dfw)
  (ensembleDf.take topKFinal).map toFinalRec

/-- The sequential loop of step 1️⃣ (lines 106–115): call every configured
API in `api_urls` order; the first raised `ValueError` propagates and aborts
the whole call. -/
def collect (resp : String → Body) : List (String × String) → Except ApiError (List (List Row))
  | [] => .ok []
  | (m, u) :: rest =>
      match call_reco_api m (resp u) with
      | .error e => .error e
      | .ok df =>
          match collect resp rest with
          | .error e => .error e
          | .ok dfs => .ok (df :: dfs)

/-- `get_ensemble_recommendations` (lines 71–164).  `resp` abstracts the
network: the decoded JSON body each URL answers with. -/
def get_ensemble_recommendations (resp : String → Body) (apiUrls : List (String × String))
    (topKFinal : ℕ) (weights? : Option (List (String × ℚ))) : Except ApiError (List FinalRec) :=
  if apiUrls.isEmpty then .error .emptyApiUrls
  else
    match collect resp apiUrls with
    | .error e => .error e
    | .ok dfs => .ok (pipeline dfs.flatten (apiUrls.map Prod.fst) topKFinal weights?)

/-! ## Properties of the code-point order -/

theorem charToNat_inj {a b : Char} (h : a.toNat = b.toNat) : a = b := by
  rw [← Char.ofNat_toNat a, h, Char.ofNat_toNat]

theorem charListToNat_inj :
    ∀ {l₁ l₂ : List Char}, l₁.map Char.toNat = l₂.map Char.toNat → l₁ = l₂ := by
  intro l₁
  induction l₁ with
  | nil => intro l₂ h; cases l₂ with
    | nil => rfl
    | cons b bs => simp at h
  | cons a as ih =>
      intro l₂ h
      cases l₂ with
      | nil => simp at h
      | cons b bs =>
          simp only [List.map_cons, List.cons.injEq] at h
          exact congrArg₂ List.cons (charToNat_inj h.1) (ih h.2)

theorem strKey_inj {a b : String} (h : strKey a = strKey b) : a = b :=
  String.ext (charListToNat_inj h)

theorem natListLtb_irrefl (l : List ℕ) : natListLtb l l = false := by
  induction l with
  | nil => rfl
  | cons a as ih => simp [natListLtb, ih]

theorem natListLtb_asymm (l₁ : List ℕ) :
    ∀ l₂, natListLtb l₁ l₂ = true → natListLtb l₂ l₁ = false := by
  induction l₁ with
  | nil =>
      intro l₂ h
      cases l₂ with
      | nil => simpa [natListLtb] using h
      | cons b bs => rfl
  | cons a as ih =>
      intro l₂ h
      cases l₂ with
      | nil => simp [natListLtb] at h
      | cons b bs =>
          simp only [natListLtb] at h ⊢
          by_cases hab : a < b
          · have hba : ¬ b < a := by omega
            simp [hab, hba]
          · by_cases hba : b < a
            · simp [hab, hba] at h
            · simp only [hab, hba, if_false] at h
              simp [hab, hba, ih bs h]

theorem natListLtb_trans (l₁ : List ℕ) :
    ∀ l₂ l₃, natListLtb l₁ l₂ = true → natListLtb l₂ l₃ = true →
      natListLtb l₁ l₃ = true := by
  induction l₁ with
  | nil =>
      intro l₂ l₃ h12 h23
      cases l₂ with
      | nil => simp [natListLtb] at h12
      | cons b bs =>
          cases l₃ with
          | nil => simp [natListLtb] at h23
          | cons c cs => rfl
  | cons a as ih =>
      intro l₂ l₃ h12 h23
      cases l₂ with
      | nil => simp [natListLtb] at h12
      | cons b bs =>
          cases l₃ with
          | nil => simp [natListLtb] at h23
          | cons c cs =>
              simp only [natListLtb] at h12 h23 ⊢
              by_cases hab : a < b
              · by_cases hbc : b < c
                · have : a < c := by omega
                  simp [this]
                · by_cases hcb : c < b
                  · simp [hbc, hcb] at h23
                  · have : a < c := by omega
                    simp [this]
              · by_cases hba : b < a
                · simp [hab, hba] at h12
                · have hab' : a = b := by omega
                  subst hab'
                  simp only [hab, if_false] at h12
                  by_cases hac : a < c
                  · simp [hac]
                  · by_cases hca : c < a
                    · simp [hac, hca] at h23
                    · simp only [hac, hca, if_false] at h23 ⊢
                      exact ih bs cs h12 h23

theorem natListLtb_connex (l₁ : List ℕ) :
    ∀ l₂, natListLtb l₁ l₂ = false → natListLtb l₂ l₁ = false → l₁ = l₂ := by
  induction l₁ with
  | nil =>
      intro l₂ h12 _
      cases l₂ with
      | nil => rfl
      | cons b bs => simp [natListLtb] at h12
  | cons a as ih =>
      intro l₂ h12 h21
      cases l₂ with
      | nil => simp [natListLtb] at h21
      | cons b bs =>
          simp only [natListLtb] at h12 h21
          by_cases hab : a < b
          · simp [hab] at h12
          · by_cases hba : b < a
            · simp [hab, hba] at h21
            · have hab' : a = b := by omega
              subst hab'
              simp only [hab, if_false] at h12 h21
              exact congrArg₂ List.cons rfl (ih bs h12 h21)

theorem sLT_asymm {a b : String} (h : sLT a b) : ¬ sLT b a := by
  intro h'
  have := natListLtb_asymm (strKey a) (strKey b) h
  rw [h'] at this
  simp at this

theorem sLE_total : ∀ a b : String, sLE a b ∨ sLE b a := by
  intro a b
  by_cases h : natListLtb (strKey b) (strKey a) = true
  · right
    exact natListLtb_asymm _ _ h
  · left
    exact Bool.not_eq_true _ |>.mp h

theorem sLE_trans {a b c : String} (h₁ : sLE a b) (h₂ : sLE b c) : sLE a c := by
  unfold sLE at h₁ h₂ ⊢
  by_cases hca : natListLtb (strKey c) (strKey a) = true
  · exfalso
    by_cases hab : natListLtb (strKey a) (strKey b) = true
    · have := natListLtb_trans _ _ _ hca hab
      rw [h₂] at this
      simp at this
    · by_cases hba : natListLtb (strKey b) (strKey a) = true
      · rw [h₁] at hba
        simp at hba
      · have heq : strKey a = strKey b :=
          natListLtb_connex _ _ (Bool.not_eq_true _ |>.mp hab) (Bool.not_eq_true _ |>.mp hba)
        rw [heq] at hca
        rw [h₂] at hca
        simp at hca
  · exact Bool.not_eq_true _ |>.mp hca

theorem sLE_antisymm {a b : String} (h₁ : sLE a b) (h₂ : sLE b a) : a = b :=
  strKey_inj (natListLtb_connex _ _ h₂ h₁)

theorem sLE_refl (a : String) : sLE a a :=
  natListLtb_irrefl (strKey a)

theorem sLT_of_sLE_of_ne {a b : String} (h : sLE a b) (hne : a ≠ b) : sLT a b := by
  unfold sLT
  by_cases hab : natListLtb (strKey a) (strKey b) = true
  · exact hab
  · exact absurd (strKey_inj (natListLtb_connex _ _ (Bool.not_eq_true _ |>.mp hab) h)) hne

theorem sLE_of_sLT {a b : String} (h : sLT a b) : sLE a b :=
  natListLtb_asymm _ _ h

theorem sLT_irrefl (a : String) : ¬ sLT a a := by
  intro h
  unfold sLT at h
  rw [natListLtb_irrefl] at h
  exact Bool.false_ne_true h

instance : IsTotal String sLE := ⟨sLE_total⟩

instance : IsTrans String sLE := ⟨fun _ _ _ => sLE_trans⟩

instance : IsAntisymm String sLE := ⟨fun _ _ => sLE_antisymm⟩

/-! ## Properties of `dedupSortStr` -/

theorem mem_dedupSortStr {x : String} {l : List String} :
    x ∈ dedupSortStr l ↔ x ∈ l := by
  unfold dedupSortStr
  rw [(List.perm_insertionSort sLE l.dedup).mem_iff, List.mem_dedup]

theorem nodup_dedupSortStr (l : List String) : (dedupSortStr l).Nodup :=
  ((List.perm_insertionSort sLE l.dedup).symm).nodup (List.nodup_dedup l)

theorem sorted_dedupSortStr (l : List String) : List.Sorted sLE (dedupSortStr l) :=
  List.sorted_insertionSort sLE l.dedup

theorem pairwise_sLT_dedupSortStr (l : List String) :
    List.Pairwise sLT (dedupSortStr l) := by
  have h₁ := sorted_dedupSortStr l
  have h₂ := nodup_dedupSortStr l
  exact (List.Pairwise.and h₁ h₂).imp fun h => sLT_of_sLE_of_ne h.1 h.2

theorem dedupSortStr_ext {l₁ l₂ : List String}
    (h : ∀ x, x ∈ l₁ ↔ x ∈ l₂) : dedupSortStr l₁ = dedupSortStr l₂ := by
  have hperm : (dedupSortStr l₁).Perm (dedupSortStr l₂) := by
    rw [List.perm_ext_iff_of_nodup (nodup_dedupSortStr l₁) (nodup_dedupSortStr l₂)]
    intro a
    rw [mem_dedupSortStr, mem_dedupSortStr]
    exact h a
  exact List.eq_of_perm_of_sorted hperm (sorted_dedupSortStr l₁) (sorted_dedupSortStr l₂)

theorem dedupSortStr_ne_nil {x : String} {l : List String} (hx : x ∈ l) :
    dedupSortStr l ≠ [] := by
  intro hnil
  have : x ∈ dedupSortStr l := mem_dedupSortStr.mpr hx
  rw [hnil] at this
  exact List.not_mem_nil x this

/-! ## Generic list helpers -/

theorem head?_filter {α : Type} (p : α → Bool) (l : List α) :
    (l.filter p).head? = l.find? p := by
  induction l with
  | nil => rfl
  | cons a t ih =>
      by_cases h : p a
      · simp [List.filter_cons, List.find?_cons, h]
      · simp [List.filter_cons, List.find?_cons, h, ih]

theorem findSome?_eq_head?_bind {α β : Type} (f : α → Option β) (l : List α)
    (h : ∀ x ∈ l, (f x).isSome) : l.findSome? f = l.head?.bind f := by
  cases l with
  | nil => rfl
  | cons a t =>
      have ha := h a (List.mem_cons_self a t)
      cases hfa : f a with
      | none => rw [hfa] at ha; simp at ha
      | some b => simp [List.findSome?_cons, hfa]

theorem minFold_eq_none_iff {l : List ℚ} : minFold l = none ↔ l = [] := by
  cases l with
  | nil => simp [minFold]
  | cons a t =>
      simp only [minFold, List.foldr_cons]
      constructor
      · intro h
        cases hm : t.foldr (fun x m => match m with | none => some x | some y => some (min x y)) none with
        | none => rw [hm] at h; simp at h
        | some y => rw [hm] at h; simp at h
      · intro h; exact absurd h (List.cons_ne_nil a t)

theorem minFold_le : ∀ {l : List ℚ} {m : ℚ}, minFold l = some m → ∀ x ∈ l, m ≤ x := by
  intro l
  induction l with
  | nil => intro m _ x hx; exact absurd hx (List.not_mem_nil x)
  | cons a t ih =>
      intro m hm x hx
      simp only [minFold, List.foldr_cons] at hm
      cases ht : minFold t with
      | none =>
          rw [show t.foldr (fun x m => match m with | none => some x | some y => some (min x y)) none = minFold t from rfl, ht] at hm
          simp only [Option.some.injEq] at hm
          subst hm
          rcases List.mem_cons.mp hx with rfl | hx'
          · exact le_refl x
          · rw [minFold_eq_none_iff.mp ht] at hx'
            exact absurd hx' (List.not_mem_nil x)
      | some y =>
          rw [show t.foldr (fun x m => match m with | none => some x | some y => some (min x y)) none = minFold t from rfl, ht] at hm
          simp only [Option.some.injEq] at hm
          subst hm
          rcases List.mem_cons.mp hx with rfl | hx'
          · exact min_le_left x y
          · exact le_trans (min_le_right a y) (ih ht x hx')

theorem sMin_le {l : List (Option ℚ)} {mn q : ℚ}
    (hmn : sMin l = some mn) (hq : some q ∈ l) : mn ≤ q := by
  apply minFold_le hmn
  exact List.mem_filterMap.mpr ⟨some q, hq, rfl⟩

/-! ## `sumSkipna` helpers -/

theorem sumSkipna_perm {l₁ l₂ : List (Option ℚ)} (h : l₁.Perm l₂) :
    sumSkipna l₁ = sumSkipna l₂ :=
  (h.filterMap id).sum_eq

theorem sumSkipna_append (l₁ l₂ : List (Option ℚ)) :
    sumSkipna (l₁ ++ l₂) = sumSkipna l₁ + sumSkipna l₂ := by
  simp [sumSkipna, List.filterMap_append]

theorem sumSkipna_split {α : Type} (p : α → Bool) (l : List α) (g : α → Option ℚ) :
    sumSkipna (l.map g) =
      sumSkipna ((l.filter p).map g) + sumSkipna ((l.filter fun x => !p x).map g) := by
  have hperm : (l.filter p ++ l.filter fun x => !p x).Perm l := List.filter_append_perm p l
  calc sumSkipna (l.map g)
      = sumSkipna ((l.filter p ++ l.filter fun x => !p x).map g) :=
        (sumSkipna_perm (hperm.map g)).symm
    _ = sumSkipna ((l.filter p).map g) + sumSkipna ((l.filter fun x => !p x).map g) := by
        rw [List.map_append, sumSkipna_append]

theorem sumSkipna_map_eq_sum {α : Type} (l : List α) (g : α → Option ℚ) (f : α → ℚ)
    (h : ∀ x ∈ l, g x = some (f x)) : sumSkipna (l.map g) = (l.map f).sum := by
  induction l with
  | nil => rfl
  | cons a t ih =>
      have ha := h a (List.mem_cons_self a t)
      simp only [List.map_cons, sumSkipna, List.filterMap_cons, ha, List.sum_cons]
      exact congrArg (f a + ·) (ih fun x hx => h x (List.mem_cons_of_mem a hx))

theorem sumSkipna_nonneg {l : List (Option ℚ)}
    (h : ∀ q : ℚ, some q ∈ l → 0 ≤ q) : 0 ≤ sumSkipna l := by
  apply List.sum_nonneg
  intro x hx
  rcases List.mem_filterMap.mp hx with ⟨o, ho, hid⟩
  cases o with
  | none => simp at hid
  | some q =>
      simp only [id, Option.some.injEq] at hid
      subst hid
      exact h q ho

theorem sumSkipna_eq_zero {l : List (Option ℚ)}
    (h : ∀ q : ℚ, some q ∈ l → q = 0) : sumSkipna l = 0 := by
  apply List.sum_eq_zero
  intro x hx
  rcases List.mem_filterMap.mp hx with ⟨o, ho, hid⟩
  cases o with
  | none => simp at hid
  | some q =>
      simp only [id, Option.some.injEq] at hid
      subst hid
      exact h q ho

/-! ## Lookup helpers -/

theorem lookup_eq_none_of_not_mem {β : Type} {w : List (String × β)} {m : String}
    (h : m ∉ w.map Prod.fst) : w.lookup m = none := by
  induction w with
  | nil => rfl
  | cons p t ih =>
      obtain ⟨a, b⟩ := p
      simp only [List.map_cons, List.mem_cons] at h
      push_neg at h
      have hne : (m == a) = false := beq_eq_false_iff_ne.mpr h.1
      simp [List.lookup, hne, ih h.2]

theorem lookup_mem {β : Type} {w : List (String × β)} {m : String} {q : β}
    (h : w.lookup m = some q) : (m, q) ∈ w := by
  induction w with
  | nil => simp [List.lookup] at h
  | cons p t ih =>
      obtain ⟨a, b⟩ := p
      by_cases hma : m = a
      · subst hma
        simp only [List.lookup, beq_self_eq_true] at h
        injection h with h
        subst h
        exact List.mem_cons_self _ _
      · have hne : (m == a) = false := beq_eq_false_iff_ne.mpr hma
        simp only [List.lookup, hne] at h
        exact List.mem_cons_of_mem _ (ih h)

/-! ## Grouping by model: permutation and shape lemmas -/

theorem flatMap_filter_perm {α : Type} (key : α → String) :
    ∀ (keys : List String) (rows : List α), keys.Nodup →
      (∀ r ∈ rows, key r ∈ keys) →
      (keys.flatMap fun m => rows.filter fun r => key r == m).Perm rows := by
  intro keys
  induction keys with
  | nil =>
      intro rows _ hcov
      cases rows with
      | nil => simp
      | cons r rs => exact absurd (hcov r (List.mem_cons_self r rs)) (List.not_mem_nil _)
  | cons m ks ih =>
      intro rows hnd hcov
      have hm_not : m ∉ ks := (List.nodup_cons.mp hnd).1
      have hks : ∀ m' ∈ ks, (rows.filter fun r => key r == m') =
          ((rows.filter fun r => !(key r == m)).filter fun r => key r == m') := by
        intro m' hm'
        rw [List.filter_filter]
        apply List.filter_congr
        intro r _
        by_cases h : key r = m'
        · have hne : (m' == m) = false :=
            beq_eq_false_iff_ne.mpr fun hc => hm_not (hc ▸ hm')
          simp [h, hne]
        · simp [beq_eq_false_iff_ne.mpr h]
      have h1 : (m :: ks).flatMap (fun m' => rows.filter fun r => key r == m') =
          (rows.filter fun r => key r == m) ++
            ks.flatMap (fun m' =>
              (rows.filter fun r => !(key r == m)).filter fun r => key r == m') := by
        rw [List.flatMap_cons, List.flatMap_congr hks]
      rw [h1]
      refine List.Perm.trans (List.Perm.append_left _ ?_) (List.filter_append_perm _ rows)
      apply ih
      · exact (List.nodup_cons.mp hnd).2
      · intro r hr
        have hr' := List.mem_filter.mp hr
        rcases List.mem_cons.mp (hcov r hr'.1) with hrm | hrk
        · exact absurd (beq_iff_eq.mpr hrm) (by simpa using hr'.2)
        · exact hrk

/-- The concatenation of the model groups in group order: the row order of
the table `_normalize_similarity_by_model` returns. -/
def groupedRowsAll (rows : List Row) : List Row :=
  (modelKeys rows).flatMap (groupRows rows)

theorem groupedRowsAll_perm (rows : List Row) : (groupedRowsAll rows).Perm rows := by
  apply flatMap_filter_perm (fun r => r.model) (modelKeys rows) rows
  · exact nodup_dedupSortStr _
  · intro r hr
    exact mem_dedupSortStr.mpr (List.mem_map_of_mem (·.model) hr)

/-! ## Shape of the normalized table -/

theorem mkNRow_toRow (r : Row) (v : Option ℚ) : (mkNRow r v).toRow = r := rfl

theorem normalize_eq_map (rows : List Row) :
    normalize_similarity_by_model rows =
      (groupedRowsAll rows).map fun r => mkNRow r (normVal rows r.model r.similarity) := by
  unfold normalize_similarity_by_model groupedRowsAll
  rw [List.map_flatMap]
  apply List.flatMap_congr
  intro m _
  have hmod : ∀ r ∈ groupRows rows m, r.model = m := by
    intro r hr
    exact beq_iff_eq.mp (List.mem_filter.mp hr).2
  have hval : ∀ r ∈ groupRows rows m,
      normVal rows r.model r.similarity = normVal rows m r.similarity := by
    intro r hr
    rw [hmod r hr]
  cases hsmin : sMin ((groupRows rows m).map (·.similarity)) with
  | none =>
      simp only [hsmin]
      apply List.map_congr_left
      intro r hr
      rw [hval r hr]
      unfold normVal
      rw [hsmin]
  | some mn =>
      cases hsmax : sMax ((groupRows rows m).map (·.similarity)) with
      | none =>
          simp only [hsmin, hsmax]
          apply List.map_congr_left
          intro r hr
          rw [hval r hr]
          unfold normVal
          rw [hsmin, hsmax]
      | some mx =>
          simp only [hsmin, hsmax]
          by_cases hlt : mn < mx
          · rw [if_pos hlt]
            apply List.map_congr_left
            intro r hr
            rw [hval r hr]
            unfold normVal
            rw [hsmin, hsmax]
            simp [hlt]
          · rw [if_neg hlt]
            apply List.map_congr_left
            intro r hr
            rw [hval r hr]
            unfold normVal
            rw [hsmin, hsmax]
            simp [hlt]

theorem normalize_toRow_perm (rows : List Row) :
    ((normalize_similarity_by_model rows).map (·.toRow)).Perm rows := by
  rw [normalize_eq_map, List.map_map]
  have h : ((groupedRowsAll rows).map
      ((·.toRow) ∘ fun r => mkNRow r (normVal rows r.model r.similarity))) =
      groupedRowsAll rows := by
    rw [show ((·.toRow) ∘ fun r => mkNRow r (normVal rows r.model r.similarity)) =
      (id : Row → Row) from rfl, List.map_id]
  rw [h]
  exact groupedRowsAll_perm rows

/-! ## Shape of the weighted table -/

/-- The weighted row a raw table row ends up as, as a function of the whole
table and the resolved weights. -/
def wRowOf (rows : List Row) (w : List (String × ℚ)) (r : Row) : WRow :=
  addWeight w (mkNRow r (normVal rows r.model r.similarity))

theorem wRowOf_isbn (rows : List Row) (w : List (String × ℚ)) (r : Row) :
    (wRowOf rows w r).isbn = r.isbn := rfl

theorem wRowOf_model (rows : List Row) (w : List (String × ℚ)) (r : Row) :
    (wRowOf rows w r).model = r.model := rfl

theorem dfw_eq_map (rows : List Row) (w : List (String × ℚ)) :
    (normalize_similarity_by_model rows).map (addWeight w) =
      (groupedRowsAll rows).map (wRowOf rows w) := by
  rw [normalize_eq_map, List.map_map]
  rfl

/-! ## Aggregation lemmas -/

theorem aggRowFor_isbn (rows : List WRow) (k : String) : (aggRowFor rows k).isbn = k := rfl

theorem aggregate_map_isbn (rows : List WRow) :
    (aggregateByIsbn rows).map (·.isbn) = dedupSortStr (rows.filterMap (·.isbn)) := by
  unfold aggregateByIsbn
  rw [List.map_map]
  rw [show ((·.isbn) ∘ aggRowFor rows) = (id : String → String) from rfl, List.map_id]

theorem pairwise_isbn_aggregate (rows : List WRow) :
    List.Pairwise (fun a b : AggRow => sLT a.isbn b.isbn) (aggregateByIsbn rows) := by
  unfold aggregateByIsbn
  rw [List.pairwise_map]
  exact pairwise_sLT_dedupSortStr _

theorem nodup_isbn_aggregate (rows : List WRow) :
    ((aggregateByIsbn rows).map (·.isbn)).Nodup := by
  rw [aggregate_map_isbn]
  exact nodup_dedupSortStr _

theorem mem_aggregate_iff {rows : List WRow} {a : AggRow} :
    a ∈ aggregateByIsbn rows ↔
      ∃ k, k ∈ dedupSortStr (rows.filterMap (·.isbn)) ∧ aggRowFor rows k = a := by
  unfold aggregateByIsbn
  exact List.mem_map

/-! ## The descending sort -/

instance : IsTotal AggRow scoreLE := ⟨fun a b => le_total a.score_final b.score_final⟩

instance : IsTrans AggRow scoreLE := ⟨fun _ _ _ h₁ h₂ => le_trans h₁ h₂⟩

theorem sortByScoreDesc_perm (l : List AggRow) : (sortByScoreDesc l).Perm l := by
  unfold sortByScoreDesc
  exact (List.reverse_perm _).trans
    ((List.perm_insertionSort scoreLE l.reverse).trans (List.reverse_perm l))

theorem sortByScoreDesc_length (l : List AggRow) : (sortByScoreDesc l).length = l.length :=
  (sortByScoreDesc_perm l).length_eq

/-! ## Inversion helpers for `get_ensemble_recommendations` -/

theorem collect_cons_error {resp : String → Body} {m u : String}
    {rest : List (String × String)} {e : ApiError}
    (h : call_reco_api m (resp u) = .error e) :
    collect resp ((m, u) :: rest) = .error e := by
  unfold collect
  rw [h]

theorem collect_mem_error {resp : String → Body} :
    ∀ (apiUrls : List (String × String)) {m u : String} {e : ApiError},
      (m, u) ∈ apiUrls → call_reco_api m (resp u) = .error e →
      ∃ e', collect resp apiUrls = .error e' := by
  intro apiUrls
  induction apiUrls with
  | nil => intro m u e h _; exact absurd h (List.not_mem_nil _)
  | cons p rest ih =>
      intro m u e hmem hc
      obtain ⟨m', u'⟩ := p
      cases hc' : call_reco_api m' (resp u') with
      | error e'' => exact ⟨e'', by unfold collect; rw [hc']⟩
      | ok df =>
          rcases List.mem_cons.mp hmem with heq | htail
          · rw [Prod.mk.injEq] at heq
            obtain ⟨rfl, rfl⟩ := heq
            rw [hc] at hc'
            exact absurd hc' (by simp)
          · rcases ih htail hc with ⟨e', he'⟩
            exact ⟨e', by unfold collect; rw [hc', he']⟩

theorem get_ensemble_error_of_collect {resp : String → Body}
    {apiUrls : List (String × String)} {k : ℕ} {w? : Option (List (String × ℚ))}
    {e : ApiError} (hne : apiUrls ≠ []) (hc : collect resp apiUrls = .error e) :
    get_ensemble_recommendations resp apiUrls k w? = .error e := by
  unfold get_ensemble_recommendations
  rw [if_neg (by simpa using hne), hc]

theorem get_ensemble_ok_inv {resp : String → Body} {apiUrls : List (String × String)}
    {k : ℕ} {w? : Option (List (String × ℚ))} {out : List FinalRec}
    (h : get_ensemble_recommendations resp apiUrls k w? = .ok out) :
    apiUrls ≠ [] ∧ ∃ dfs, collect resp apiUrls = .ok dfs ∧
      out = pipeline dfs.flatten (apiUrls.map Prod.fst) k w? := by
  unfold get_ensemble_recommendations at h
  by_cases he : apiUrls.isEmpty
  · rw [if_pos he] at h
    exact absurd h (by simp)
  · rw [if_neg he] at h
    refine ⟨by simpa using he, ?_⟩
    cases hc : collect resp apiUrls with
    | error e => rw [hc] at h; exact absurd h (by simp)
    | ok dfs =>
        rw [hc] at h
        simp only [Except.ok.injEq] at h
        exact ⟨dfs, rfl, h.symm⟩

theorem mem_pipeline {allRows : List Row} {names : List String} {k : ℕ}
    {w? : Option (List (String × ℚ))} {it : FinalRec}
    (h : it ∈ pipeline allRows names k w?) :
    ∃ a ∈ aggregateByIsbn
        ((normalize_similarity_by_model allRows).map (addWeight (resolveWeights w? names))),
      toFinalRec a = it := by
  unfold pipeline at h
  rcases List.mem_map.mp h with ⟨a, ha, rfl⟩
  refine ⟨a, ?_, rfl⟩
  have hsub := List.take_sublist k
    (sortByScoreDesc (aggregateByIsbn
      ((normalize_similarity_by_model allRows).map (addWeight (resolveWeights w? names)))))
  exact (sortByScoreDesc_perm _).mem_iff.mp (hsub.mem ha)

/-! ## Claims C5, C7 — `_call_reco_api` validation -/

/-- The spec-side formulation for C5: each of the five required fields is
carried by at least one record of the response. -/
def requiredCovered (recs : List Rec) : Bool :=
  (recs.any fun r => r.title.isSome) && ((recs.any fun r => r.author.isSome) &&
    ((recs.any fun r => r.description.isSome) && ((recs.any fun r => r.isbn.isSome) &&
      (recs.any fun r => r.similarity.isSome))))

theorem missingCols_nil_iff {recs : List Rec} :
    missingCols recs = [] ↔ requiredCovered recs = true := by
  cases hT : recs.any fun r => r.title.isSome <;>
    cases hA : recs.any fun r => r.author.isSome <;>
      cases hD : recs.any fun r => r.description.isSome <;>
        cases hI : recs.any fun r => r.isbn.isSome <;>
          cases hS : recs.any fun r => r.similarity.isSome <;>
            simp [missingCols, requiredCovered, hT, hA, hD, hI, hS]

/-- Claim C5 (amended): a list-of-records response fails as a whole iff some
required field is absent from every record (the missing-column check);
otherwise the source succeeds and every record is kept, in order, with its
absent fields as nulls — individual incomplete records are not dropped by
`_call_reco_api`. -/
theorem claim_C5_partial_records (model : String) (recs : List Rec) :
    (requiredCovered recs = true →
      call_reco_api model (.jlist recs) = .ok (recs.map (recToRow model))) ∧
    (requiredCovered recs = false →
      call_reco_api model (.jlist recs) =
        .error (.missingColumns model (missingCols recs))) := by
  constructor
  · intro h
    simp only [call_reco_api, validateCols]
    rw [if_pos (missingCols_nil_iff.mpr h)]
  · intro h
    simp only [call_reco_api, validateCols]
    rw [if_neg fun hc => by rw [missingCols_nil_iff.mp hc] at h; cases h]

/-- Claim C5 counterexample: a response whose every record lacks some
required field (the first has no `isbn`, the second no `similarity`), yet
whose columns jointly cover all required fields.  The claim says such a
source must fail (first half) and that incomplete records are dropped
(second half); the code accepts the source and keeps both records. -/
theorem claim_C5_counterexample :
    call_reco_api "m"
      (.jlist [⟨some "t1", some "a1", some "d1", none, some 1⟩,
        ⟨some "t2", some "a2", some "d2", some "B", none⟩]) =
      .ok [⟨some "t1", some "a1", some "d1", none, some 1, "m"⟩,
        ⟨some "t2", some "a2", some "d2", some "B", none, "m"⟩] := rfl

theorem claim_C5_witness :
    call_reco_api "m" (.jlist [⟨some "t", some "a", some "d", some "X", some 1⟩]) =
      .ok [⟨some "t", some "a", some "d", some "X", some 1, "m"⟩] ∧
    call_reco_api "m" (.jlist []) =
      .error (.missingColumns "m" ["title", "author", "description", "isbn", "similarity"]) := by
  constructor
  · exact (claim_C5_partial_records "m" _).1 (by decide)
  · exact (claim_C5_partial_records "m" []).2 (by decide)

/-- The spec-side formulation for C7's fallback: the flattened object carries
all five required fields. -/
def requiredCoveredRec (r : Rec) : Bool :=
  r.title.isSome && (r.author.isSome && (r.description.isSome &&
    (r.isbn.isSome && r.similarity.isSome)))

theorem requiredCovered_single (r : Rec) :
    requiredCovered [r] = requiredCoveredRec r := by
  simp [requiredCovered, requiredCoveredRec, List.any]

theorem validateCols_ne_format {model m' : String} {recs : List Rec} :
    validateCols model recs ≠ .error (.unexpectedFormat m') := by
  unfold validateCols
  by_cases h : missingCols recs = []
  · rw [if_pos h]; simp
  · rw [if_neg h]; simp

/-- Claim C7 (amended): a body is rejected as the unexpected-format error
iff it is neither a list nor an object (lists and objects never produce
that error, whatever their content); an object with one of the wrapper
keys `results`/`recommendations`/`books`/`items` holding a list is parsed
exactly like that first wrapped list; and an object without such a key is
NOT rejected for its shape — it is flattened (`pd.json_normalize`) into a
single record, which is accepted whenever it carries the required
fields. -/
theorem claim_C7_body_shapes :
    (∀ (model : String) (b : Body),
      call_reco_api model b = .error (.unexpectedFormat model) ↔ b = .jother) ∧
    (∀ (model : String) (d : List (String × JVal)) (recs : List Rec),
      findWrapped d = some recs →
      call_reco_api model (.jdict d) = call_reco_api model (.jlist recs)) ∧
    (∀ (model : String) (d : List (String × JVal)), findWrapped d = none →
      requiredCoveredRec (jsonNormalizeRec d) = true →
      call_reco_api model (.jdict d) = .ok [recToRow model (jsonNormalizeRec d)]) := by
  refine ⟨?_, ?_, ?_⟩
  · intro model b
    constructor
    · intro h
      cases b with
      | jlist recs =>
          simp only [call_reco_api] at h
          exact absurd h validateCols_ne_format
      | jdict d =>
          simp only [call_reco_api] at h
          cases hfw : findWrapped d with
          | some recs => rw [hfw] at h; exact absurd h validateCols_ne_format
          | none => rw [hfw] at h; exact absurd h validateCols_ne_format
      | jother => rfl
    · rintro rfl
      rfl
  · intro model d recs h
    simp only [call_reco_api]
    rw [h]
  · intro model d hw hc
    simp only [call_reco_api]
    rw [hw]
    simp only [validateCols]
    rw [if_pos (missingCols_nil_iff.mpr ((requiredCovered_single _).trans hc))]
    rfl

/-- Claim C7 counterexample: an object body with none of the wrapper keys
`results`/`recommendations`/`books`/`items` — which the claim says must be
rejected as a schema error — is accepted: `pd.json_normalize` flattens it
into a single valid record. -/
theorem claim_C7_counterexample :
    call_reco_api "m"
      (.jdict [("title", .jstr "t"), ("author", .jstr "a"), ("description", .jstr "d"),
        ("isbn", .jstr "i"), ("similarity", .jnum 1)]) =
      .ok [⟨some "t", some "a", some "d", some "i", some 1, "m"⟩] := rfl

theorem claim_C7_witness :
    call_reco_api "m" .jother = .error (.unexpectedFormat "m") ∧
    call_reco_api "m"
      (.jdict [("note", .jstr "x"),
        ("results", .jarr [⟨some "t", some "a", some "d", some "i", some 3⟩])]) =
      call_reco_api "m" (.jlist [⟨some "t", some "a", some "d", some "i", some 3⟩]) ∧
    call_reco_api "m"
      (.jdict [("isbn", .jstr "i"), ("title", .jstr "t"), ("author", .jstr "a"),
        ("description", .jstr "d"), ("similarity", .jnum 2)]) =
      .ok [⟨some "t", some "a", some "d", some "i", some 2, "m"⟩] := by
  refine ⟨?_, ?_, ?_⟩
  · exact (claim_C7_body_shapes.1 "m" .jother).mpr rfl
  · exact claim_C7_body_shapes.2.1 "m" _ _ rfl
  · exact claim_C7_body_shapes.2.2 "m" _ rfl rfl

/-! ## Claim C6 — configuration errors and zero weights -/

theorem rowWeight_eq_zero {w : List (String × ℚ)} (h : ∀ p ∈ w, p.2 = 0) (m : String) :
    rowWeight w m = 0 := by
  unfold rowWeight
  cases hl : w.lookup m with
  | none => rfl
  | some q => exact h (m, q) (lookup_mem hl)

/-- Claim C6 (amended): only the empty source set is rejected — with the
configuration error, before any response is consulted (`resp` is
universally quantified).  A weights mapping that resolves every source to
zero is NOT rejected: the invocation proceeds, and every returned item then
carries `score_final = 0`. -/
theorem claim_C6_empty_and_zero_weights :
    (∀ (resp : String → Body) (k : ℕ) (w? : Option (List (String × ℚ))),
      get_ensemble_recommendations resp [] k w? = .error .emptyApiUrls) ∧
    (∀ (resp : String → Body) (apiUrls : List (String × String)) (k : ℕ)
      (w : List (String × ℚ)) (out : List FinalRec),
      (∀ p ∈ w, p.2 = 0) →
      get_ensemble_recommendations resp apiUrls k (some w) = .ok out →
      ∀ it ∈ out, it.score_final = 0) := by
  constructor
  · intro resp k w?
    rfl
  · intro resp apiUrls k w out hw hok it hit
    rcases get_ensemble_ok_inv hok with ⟨hne, dfs, hc, rfl⟩
    rcases mem_pipeline hit with ⟨a, ha, rfl⟩
    rcases mem_aggregate_iff.mp ha with ⟨key, hkey, rfl⟩
    show sumSkipna _ = 0
    apply sumSkipna_eq_zero
    intro q hq
    rcases List.mem_map.mp hq with ⟨wr, hwr, hwq⟩
    have hwr' := (List.mem_filter.mp hwr).1
    rcases List.mem_map.mp hwr' with ⟨nr, hnr, rfl⟩
    simp only [addWeight, resolveWeights] at hwq
    cases hsn : nr.similarity_norm with
    | none => rw [hsn] at hwq; exact absurd hwq (by simp)
    | some s =>
        rw [hsn] at hwq
        simp only [Option.map_some', Option.some.injEq] at hwq
        rw [← hwq, rowWeight_eq_zero hw, mul_zero]

/-- Claim C6 counterexample: one source of weight `0`, answering a valid
record.  The claim says the call must be rejected with a configuration
error before dispatch; the code instead returns a normal result (with
`score_final = 0`). -/
theorem claim_C6_counterexample :
    get_ensemble_recommendations
      (fun _ => .jlist [⟨some "t", some "a", some "d", some "X", some 3⟩])
      [("s", "u")] 10 (some [("s", 0)]) =
      .ok [⟨"X", some "t", some "a", some "d", 0, ["s"]⟩] := by
  with_unfolding_all rfl

theorem claim_C6_witness :
    get_ensemble_recommendations (fun _ => Body.jother) [] 4 none = .error .emptyApiUrls ∧
    (⟨"X", some "t", some "a", some "d", (1 : ℚ) * 0 + 0, ["s"]⟩ : FinalRec).score_final = 0 := by
  constructor
  · exact claim_C6_empty_and_zero_weights.1 (fun _ => Body.jother) 4 none
  · exact claim_C6_empty_and_zero_weights.2
      (fun _ => .jlist [⟨some "t", some "a", some "d", some "X", some 3⟩])
      [("s", "u")] 10 [("s", 0)]
      [⟨"X", some "t", some "a", some "d", (1 : ℚ) * 0 + 0, ["s"]⟩]
      (by decide) (by with_unfolding_all rfl) _ (by with_unfolding_all decide)

/-! ## Claim C10 — empty successful response -/

/-- Claim C10: a source answering a structurally valid but empty list makes
its own `_call_reco_api` raise the missing-columns error (the empty frame
has no columns at all), so the entire invocation fails whenever such a
source is configured — and when it is the first configured source, the
reported error is exactly its all-columns-missing error.  No
all-sources-empty aggregation error exists anywhere in the code. -/
theorem claim_C10_empty_response (resp : String → Body) (apiUrls : List (String × String))
    (k : ℕ) (w? : Option (List (String × ℚ))) (m u : String)
    (hmem : (m, u) ∈ apiUrls) (hresp : resp u = .jlist []) :
    (∃ e, get_ensemble_recommendations resp apiUrls k w? = .error e) ∧
    (∀ rest, apiUrls = (m, u) :: rest →
      get_ensemble_recommendations resp apiUrls k w? =
        .error (.missingColumns m ["title", "author", "description", "isbn", "similarity"])) := by
  have hcall : call_reco_api m (resp u) =
      .error (.missingColumns m ["title", "author", "description", "isbn", "similarity"]) := by
    rw [hresp]; rfl
  constructor
  · rcases collect_mem_error apiUrls hmem hcall with ⟨e', he'⟩
    refine ⟨e', get_ensemble_error_of_collect ?_ he'⟩
    rintro rfl
    exact List.not_mem_nil _ hmem
  · intro rest hrest
    subst hrest
    exact get_ensemble_error_of_collect (List.cons_ne_nil _ _) (collect_cons_error hcall)

theorem claim_C10_witness :
    get_ensemble_recommendations (fun _ => Body.jlist []) [("m", "u")] 5 none =
      .error (.missingColumns "m" ["title", "author", "description", "isbn", "similarity"]) := by
  exact (claim_C10_empty_response (fun _ => Body.jlist []) [("m", "u")] 5 none "m" "u"
    (List.mem_cons_self _ _) rfl).2 [] rfl

/-! ## Claim C2 — per-source min/max normalization -/

/-- Claim C2: inside `_normalize_similarity_by_model`, every output row's
`similarity_norm` is determined by the min and max of the raw similarities
of its own model's group only: `(s - min) / (max - min)` when `max > min`,
and `1.0` when `max = min` (all raw scores equal, including the
single-candidate group).  Moreover no row is lost or invented: forgetting
the new column, the output is a permutation of the input. -/
theorem claim_C2_normalization (rows : List Row) (nr : NRow)
    (hnr : nr ∈ normalize_similarity_by_model rows) (mn mx : ℚ)
    (hmn : sMin ((groupRows rows nr.model).map (·.similarity)) = some mn)
    (hmx : sMax ((groupRows rows nr.model).map (·.similarity)) = some mx) :
    (mn < mx → nr.similarity_norm = nr.similarity.map fun s => (s - mn) / (mx - mn)) ∧
    (mn = mx → nr.similarity_norm = some 1) ∧
    ((normalize_similarity_by_model rows).map (·.toRow)).Perm rows := by
  rw [normalize_eq_map] at hnr
  rcases List.mem_map.mp hnr with ⟨r, hr, rfl⟩
  have hmn' : sMin ((groupRows rows r.model).map (·.similarity)) = some mn := hmn
  have hmx' : sMax ((groupRows rows r.model).map (·.similarity)) = some mx := hmx
  refine ⟨?_, ?_, normalize_toRow_perm rows⟩
  · intro hlt
    show normVal rows r.model r.similarity = r.similarity.map fun s => (s - mn) / (mx - mn)
    unfold normVal
    rw [hmn', hmx']
    simp [hlt]
  · intro heq
    show normVal rows r.model r.similarity = some 1
    unfold normVal
    rw [hmn', hmx']
    simp [show ¬ mn < mx from heq ▸ lt_irrefl mn]

theorem claim_C2_witness :
    (⟨⟨some "t", some "a", some "d", some "X", some 0, "m"⟩,
      some (((0 : ℚ) - 0) / (1 - 0))⟩ : NRow).similarity_norm =
      (some (0 : ℚ)).map (fun s => (s - 0) / (1 - 0)) := by
  have h := claim_C2_normalization
    [⟨some "t", some "a", some "d", some "X", some 0, "m"⟩,
      ⟨some "u", some "b", some "e", some "Y", some 1, "m"⟩]
    ⟨⟨some "t", some "a", some "d", some "X", some 0, "m"⟩, some (((0 : ℚ) - 0) / (1 - 0))⟩
    (by with_unfolding_all decide) 0 1 (by with_unfolding_all rfl) (by with_unfolding_all rfl)
  exact h.1 (by norm_num)

/-! ## Claim C4 — output invariants -/

theorem normalize_norm_nonneg {rows : List Row} {nr : NRow}
    (hnr : nr ∈ normalize_similarity_by_model rows) {s : ℚ}
    (hs : nr.similarity_norm = some s) : 0 ≤ s := by
  rw [normalize_eq_map] at hnr
  rcases List.mem_map.mp hnr with ⟨r, hr, rfl⟩
  have hs' : normVal rows r.model r.similarity = some s := hs
  unfold normVal at hs'
  rcases hsmin : sMin ((groupRows rows r.model).map (·.similarity)) with _ | mn <;>
    rcases hsmax : sMax ((groupRows rows r.model).map (·.similarity)) with _ | mx <;>
      rw [hsmin, hsmax] at hs'
  · simp only [Option.some.injEq] at hs'; rw [← hs']; exact zero_le_one
  · simp only [Option.some.injEq] at hs'; rw [← hs']; exact zero_le_one
  · simp only [Option.some.injEq] at hs'; rw [← hs']; exact zero_le_one
  · have hs'' : (if mn < mx then r.similarity.map fun s => (s - mn) / (mx - mn)
        else some 1) = some s := hs'
    by_cases hlt : mn < mx
    · rw [if_pos hlt] at hs''
      cases hsim : r.similarity with
      | none => rw [hsim] at hs''; exact absurd hs'' (by simp)
      | some s₀ =>
          rw [hsim] at hs''
          simp only [Option.map_some', Option.some.injEq] at hs''
          have hrrows : r ∈ rows := (groupedRowsAll_perm rows).mem_iff.mp hr
          have hgrp : r ∈ groupRows rows r.model :=
            List.mem_filter.mpr ⟨hrrows, by simp⟩
          have hmem : some s₀ ∈ (groupRows rows r.model).map (·.similarity) :=
            List.mem_map.mpr ⟨r, hgrp, hsim⟩
          have hmn : mn ≤ s₀ := sMin_le hsmin hmem
          rw [← hs'']
          exact div_nonneg (sub_nonneg.mpr hmn) (le_of_lt (sub_pos.mpr hlt))
    · rw [if_neg hlt] at hs''
      simp only [Option.some.injEq] at hs''
      rw [← hs'']
      exact zero_le_one

theorem resolveWeights_nonneg {w? : Option (List (String × ℚ))} {names : List String}
    (hw : ∀ w, w? = some w → ∀ p ∈ w, 0 ≤ p.2) :
    ∀ p ∈ resolveWeights w? names, 0 ≤ p.2 := by
  cases w? with
  | some w => intro p hp; exact hw w rfl p hp
  | none =>
      intro p hp
      rcases List.mem_map.mp hp with ⟨n, _, rfl⟩
      exact div_nonneg zero_le_one (Nat.cast_nonneg _)

theorem rowWeight_nonneg {w : List (String × ℚ)} (h : ∀ p ∈ w, 0 ≤ p.2) (m : String) :
    0 ≤ rowWeight w m := by
  unfold rowWeight
  cases hl : w.lookup m with
  | none => exact le_refl 0
  | some q => exact h (m, q) (lookup_mem hl)

theorem pipeline_invariants (allRows : List Row) (names : List String) (k : ℕ)
    (w? : Option (List (String × ℚ)))
    (hw : ∀ p ∈ resolveWeights w? names, 0 ≤ p.2) :
    (∀ it ∈ pipeline allRows names k w?,
      it.models_contributing ≠ [] ∧ 0 ≤ it.score_final) ∧
    ((pipeline allRows names k w?).map (·.isbn)).Nodup ∧
    (pipeline allRows names k w?).length ≤ k := by
  refine ⟨?_, ?_, ?_⟩
  · intro it hit
    rcases mem_pipeline hit with ⟨a, ha, rfl⟩
    rcases mem_aggregate_iff.mp ha with ⟨key, hkey, rfl⟩
    constructor
    · show dedupSortStr _ ≠ []
      have hkey' := mem_dedupSortStr.mp hkey
      rcases List.mem_filterMap.mp hkey' with ⟨wr, hwr, hwisbn⟩
      have hgrp : wr ∈ isbnGroup
          ((normalize_similarity_by_model allRows).map (addWeight (resolveWeights w? names)))
          key :=
        List.mem_filter.mpr ⟨hwr, by rw [hwisbn]; simp⟩
      exact dedupSortStr_ne_nil (List.mem_map_of_mem (·.model) hgrp)
    · show 0 ≤ sumSkipna _
      apply sumSkipna_nonneg
      intro q hq
      rcases List.mem_map.mp hq with ⟨wr, hwr, hwq⟩
      have hwr' := (List.mem_filter.mp hwr).1
      rcases List.mem_map.mp hwr' with ⟨nr, hnr, rfl⟩
      cases hsn : nr.similarity_norm with
      | none =>
          rw [show (addWeight (resolveWeights w? names) nr).score_weighted =
            nr.similarity_norm.map (· * rowWeight (resolveWeights w? names) nr.model)
            from rfl, hsn] at hwq
          exact absurd hwq (by simp)
      | some s =>
          have hq' : q = s * rowWeight (resolveWeights w? names) nr.model := by
            rw [show (addWeight (resolveWeights w? names) nr).score_weighted =
              nr.similarity_norm.map (· * rowWeight (resolveWeights w? names) nr.model)
              from rfl, hsn] at hwq
            simpa using hwq.symm
          rw [hq']
          exact mul_nonneg (normalize_norm_nonneg hnr hsn) (rowWeight_nonneg hw _)
  · unfold pipeline
    rw [List.map_map]
    apply List.Sublist.nodup (List.Sublist.map _ (List.take_sublist _ _))
    exact (((sortByScoreDesc_perm _).map (·.isbn)).symm).nodup (nodup_isbn_aggregate _)
  · unfold pipeline
    rw [List.length_map, List.length_take]
    exact min_le_left _ _

/-- Claim C4: every successful invocation with non-negative source weights
satisfies the four output invariants — non-empty `models_contributing`,
non-negative `score_final`, pairwise-distinct `isbn`s, and at most
`top_k_final` returned items. -/
theorem claim_C4_output_invariants (resp : String → Body) (apiUrls : List (String × String))
    (k : ℕ) (w? : Option (List (String × ℚ))) (out : List FinalRec)
    (hok : get_ensemble_recommendations resp apiUrls k w? = .ok out)
    (hw : ∀ w, w? = some w → ∀ p ∈ w, 0 ≤ p.2) :
    (∀ it ∈ out, it.models_contributing ≠ [] ∧ 0 ≤ it.score_final) ∧
    (out.map (·.isbn)).Nodup ∧ out.length ≤ k := by
  rcases get_ensemble_ok_inv hok with ⟨hne, dfs, hc, rfl⟩
  exact pipeline_invariants dfs.flatten (apiUrls.map Prod.fst) k w?
    (resolveWeights_nonneg hw)

theorem claim_C4_witness :
    (([⟨"X", some "t", some "a", some "d", 1 * (1 / 1) + 0, ["s"]⟩] :
        List FinalRec).map (·.isbn)).Nodup ∧
    ([⟨"X", some "t", some "a", some "d", 1 * (1 / 1) + 0, ["s"]⟩] :
        List FinalRec).length ≤ 7 := by
  have h := claim_C4_output_invariants
    (fun _ => .jlist [⟨some "t", some "a", some "d", some "X", some 2⟩])
    [("s", "u")] 7 none
    [⟨"X", some "t", some "a", some "d", 1 * (1 / 1) + 0, ["s"]⟩]
    (by with_unfolding_all rfl) (fun w hw => by cases hw)
  exact h.2

/-! ## Claim C9 — sources omitted from the weights mapping -/

theorem rowWeight_cons_zero {w : List (String × ℚ)} {m : String}
    (hm : m ∉ w.map Prod.fst) (x : String) :
    rowWeight ((m, 0) :: w) x = rowWeight w x := by
  unfold rowWeight
  by_cases hxm : x = m
  · subst hxm
    rw [lookup_eq_none_of_not_mem hm]
    simp [List.lookup]
  · simp [List.lookup, beq_eq_false_iff_ne.mpr hxm]

theorem addWeight_cons_zero {w : List (String × ℚ)} {m : String}
    (hm : m ∉ w.map Prod.fst) : addWeight ((m, 0) :: w) = addWeight w := by
  funext nr
  unfold addWeight
  rw [rowWeight_cons_zero hm]

theorem pipeline_cons_zero {w : List (String × ℚ)} {m : String}
    (hm : m ∉ w.map Prod.fst) (allRows : List Row) (names : List String) (k : ℕ) :
    pipeline allRows names k (some ((m, 0) :: w)) = pipeline allRows names k (some w) := by
  unfold pipeline
  simp only [resolveWeights]
  rw [addWeight_cons_zero hm]

/-- Claim C9: a source name omitted from a supplied weights mapping gets
weight `0.0` (`fillna(0.0)`), and nothing else changes: (1) the whole call
behaves exactly as if the omitted name had been given weight `0` explicitly
(no error, no substituted equal weight); (2) each aggregated item's
`score_final` already equals the skip-null sum over the contributions of
the *other* sources only; (3) a row of the omitted source still surfaces
its model name in `models_contributing` of its isbn's aggregated item. -/
theorem claim_C9_omitted_weights (w : List (String × ℚ)) (m : String)
    (hm : m ∉ w.map Prod.fst) :
    (∀ (resp : String → Body) (apiUrls : List (String × String)) (k : ℕ),
      get_ensemble_recommendations resp apiUrls k (some w) =
        get_ensemble_recommendations resp apiUrls k (some ((m, 0) :: w))) ∧
    (∀ (nrows : List NRow) (a : AggRow),
      a ∈ aggregateByIsbn (nrows.map (addWeight w)) →
      a.score_final = sumSkipna
        (((nrows.map (addWeight w)).filter
          fun r => r.isbn == some a.isbn && !(r.model == m)).map (·.score_weighted))) ∧
    (∀ (nrows : List NRow) (key : String) (nr : NRow),
      nr ∈ nrows → nr.model = m → nr.isbn = some key →
      ∃ a, a ∈ aggregateByIsbn (nrows.map (addWeight w)) ∧
        a.isbn = key ∧ m ∈ a.models_contributing) := by
  refine ⟨?_, ?_, ?_⟩
  · intro resp apiUrls k
    unfold get_ensemble_recommendations
    by_cases he : apiUrls.isEmpty
    · rw [if_pos he, if_pos he]
    · rw [if_neg he, if_neg he]
      cases hc : collect resp apiUrls with
      | error e => rfl
      | ok dfs =>
          show Except.ok (pipeline dfs.flatten (apiUrls.map Prod.fst) k (some w)) =
            Except.ok (pipeline dfs.flatten (apiUrls.map Prod.fst) k (some ((m, 0) :: w)))
          rw [pipeline_cons_zero hm]
  · intro nrows a ha
    rcases mem_aggregate_iff.mp ha with ⟨key, hkey, rfl⟩
    show sumSkipna ((isbnGroup (nrows.map (addWeight w)) key).map (·.score_weighted)) = _
    rw [sumSkipna_split (fun r => !(r.model == m))
      (isbnGroup (nrows.map (addWeight w)) key) (·.score_weighted)]
    have hzero : sumSkipna (((isbnGroup (nrows.map (addWeight w)) key).filter
        fun r => !!(r.model == m)).map (·.score_weighted)) = 0 := by
      apply sumSkipna_eq_zero
      intro q hq
      rcases List.mem_map.mp hq with ⟨wr, hwr, hwq⟩
      have h1 := List.mem_filter.mp hwr
      have hmod : wr.model = m := by
        have h2 := h1.2
        simp only [Bool.not_not] at h2
        exact beq_iff_eq.mp h2
      have h2 := (List.mem_filter.mp h1.1).1
      rcases List.mem_map.mp h2 with ⟨nr, hnr, rfl⟩
      have hw0 : rowWeight w nr.model = 0 := by
        rw [show (addWeight w nr).model = nr.model from rfl] at hmod
        rw [hmod]
        unfold rowWeight
        rw [lookup_eq_none_of_not_mem hm]
        rfl
      cases hsn : nr.similarity_norm with
      | none =>
          rw [show (addWeight w nr).score_weighted =
            nr.similarity_norm.map (· * rowWeight w nr.model) from rfl, hsn] at hwq
          exact absurd hwq (by simp)
      | some s =>
          rw [show (addWeight w nr).score_weighted =
            nr.similarity_norm.map (· * rowWeight w nr.model) from rfl, hsn] at hwq
          simp only [Option.map_some', Option.some.injEq] at hwq
          rw [← hwq, hw0, mul_zero]
    rw [hzero, add_zero]
    show sumSkipna (((nrows.map (addWeight w)).filter
        (fun r => r.isbn == some key)).filter (fun r => !(r.model == m))
          |>.map (·.score_weighted)) = _
    rw [List.filter_filter]
    have hcomm : ((nrows.map (addWeight w)).filter
        fun a => (!(a.model == m)) && (a.isbn == some key)) =
        ((nrows.map (addWeight w)).filter
          fun r => (r.isbn == some key) && !(r.model == m)) := by
      apply List.filter_congr
      intro r _
      exact Bool.and_comm _ _
    rw [hcomm]
    rfl
  · intro nrows key nr hnr hmod hkey
    have hwmem : addWeight w nr ∈ nrows.map (addWeight w) := List.mem_map_of_mem _ hnr
    have hisbn : (addWeight w nr).isbn = some key := hkey
    have hkmem : key ∈ dedupSortStr ((nrows.map (addWeight w)).filterMap (·.isbn)) :=
      mem_dedupSortStr.mpr (List.mem_filterMap.mpr ⟨_, hwmem, hisbn⟩)
    refine ⟨aggRowFor _ key, mem_aggregate_iff.mpr ⟨key, hkmem, rfl⟩, rfl, ?_⟩
    apply mem_dedupSortStr.mpr
    apply List.mem_map.mpr
    refine ⟨addWeight w nr, ?_, hmod⟩
    exact List.mem_filter.mpr ⟨hwmem, by rw [hisbn]; simp⟩

theorem claim_C9_witness :
    get_ensemble_recommendations
      (fun _ => .jlist [⟨some "t", some "a", some "d", some "X", some 1⟩])
      [("s1", "u")] 3 (some [("s1", 1)]) =
    get_ensemble_recommendations
      (fun _ => .jlist [⟨some "t", some "a", some "d", some "X", some 1⟩])
      [("s1", "u")] 3 (some [("s2", 0), ("s1", 1)]) := by
  exact (claim_C9_omitted_weights [("s1", 1)] "s2" (by decide)).1 _ _ 3

/-! ## Claim C1 — aggregation per isbn -/

/-- A record row carrying all five expected fields (the spec's
`RawCandidate`). -/
def rowComplete (r : Row) : Bool :=
  r.title.isSome && (r.author.isSome && (r.description.isSome &&
    (r.isbn.isSome && r.similarity.isSome)))

/-- The first row carrying isbn `k` in the row order the normalization step
hands to the aggregation: sources in ascending model-name order, and inside
one source the response order. -/
def firstSeenSorted (rows : List Row) (k : String) : Option Row :=
  (groupedRowsAll rows).find? fun r => r.isbn == some k

theorem rowComplete_iff {r : Row} : rowComplete r = true ↔
    r.title.isSome = true ∧ r.author.isSome = true ∧ r.description.isSome = true ∧
      r.isbn.isSome = true ∧ r.similarity.isSome = true := by
  simp [rowComplete]

theorem findSome?_map {α β γ : Type} (g : α → β) (f : β → Option γ) (l : List α) :
    (l.map g).findSome? f = l.findSome? fun x => f (g x) := by
  induction l with
  | nil => rfl
  | cons a t ih =>
      cases hfa : f (g a) with
      | none => simp [List.findSome?_cons, hfa, ih]
      | some b => simp [List.findSome?_cons, hfa]

theorem normVal_some (rows : List Row) (m : String) (s : ℚ) :
    ∃ v, normVal rows m (some s) = some v := by
  rcases hsmin : sMin ((groupRows rows m).map (·.similarity)) with _ | mn <;>
    rcases hsmax : sMax ((groupRows rows m).map (·.similarity)) with _ | mx
  · exact ⟨1, by unfold normVal; rw [hsmin, hsmax]⟩
  · exact ⟨1, by unfold normVal; rw [hsmin, hsmax]⟩
  · exact ⟨1, by unfold normVal; rw [hsmin, hsmax]⟩
  · by_cases hlt : mn < mx
    · exact ⟨(s - mn) / (mx - mn), by unfold normVal; rw [hsmin, hsmax]; simp [hlt]⟩
    · exact ⟨1, by unfold normVal; rw [hsmin, hsmax]; simp [hlt]⟩

theorem wRowOf_score_weighted {rows : List Row} {w : List (String × ℚ)} {r : Row}
    (hcr : r.similarity.isSome = true) :
    (wRowOf rows w r).score_weighted =
      some ((normVal rows r.model r.similarity).getD 0 * rowWeight w r.model) := by
  rcases Option.isSome_iff_exists.mp hcr with ⟨s, hs⟩
  rcases normVal_some rows r.model s with ⟨v, hv⟩
  show (normVal rows r.model r.similarity).map (fun s => s * rowWeight w r.model) = _
  rw [hs, hv]
  rfl

theorem isbnGroup_dfw (rows : List Row) (w : List (String × ℚ)) (key : String) :
    isbnGroup ((normalize_similarity_by_model rows).map (addWeight w)) key =
      ((groupedRowsAll rows).filter fun r => r.isbn == some key).map (wRowOf rows w) := by
  unfold isbnGroup
  rw [dfw_eq_map, List.filter_map]
  rfl

/-- Claim C1 (amended): the aggregation step produces exactly one item per
distinct (non-null) isbn, in ascending isbn order; each item's
`score_final` is the sum, over all of that isbn's candidate rows, of the
per-source-normalized similarity times the source weight; its
`models_contributing` is the sorted set of the contributing source names;
and its descriptive fields come from the first-seen contribution for that
key in *ascending source-name order* (within a source, response order) —
the normalization step regroups the table by sorted model name before
aggregation, so configured source-iteration order does not govern the
first-seen choice. -/
theorem claim_C1_aggregation (rows : List Row) (w : List (String × ℚ))
    (hc : ∀ r ∈ rows, rowComplete r = true) (a : AggRow)
    (ha : a ∈ aggregateByIsbn ((normalize_similarity_by_model rows).map (addWeight w))) :
    ((aggregateByIsbn ((normalize_similarity_by_model rows).map (addWeight w))).map (·.isbn) =
      dedupSortStr (rows.filterMap (·.isbn))) ∧
    a.score_final = ((rows.filter fun r => r.isbn == some a.isbn).map
      fun r => (normVal rows r.model r.similarity).getD 0 * rowWeight w r.model).sum ∧
    a.models_contributing =
      dedupSortStr ((rows.filter fun r => r.isbn == some a.isbn).map (·.model)) ∧
    a.title = (firstSeenSorted rows a.isbn).bind (·.title) ∧
    a.author = (firstSeenSorted rows a.isbn).bind (·.author) ∧
    a.description = (firstSeenSorted rows a.isbn).bind (·.description) := by
  have hcomplete : ∀ r ∈ groupedRowsAll rows, rowComplete r = true := fun r hr =>
    hc r ((groupedRowsAll_perm rows).mem_iff.mp hr)
  have hpart1 :
      (aggregateByIsbn ((normalize_similarity_by_model rows).map (addWeight w))).map (·.isbn) =
        dedupSortStr (rows.filterMap (·.isbn)) := by
    rw [aggregate_map_isbn]
    apply dedupSortStr_ext
    intro x
    rw [dfw_eq_map, List.filterMap_map]
    rw [show ((fun r : WRow => r.isbn) ∘ wRowOf rows w) = (fun r : Row => r.isbn) from rfl]
    exact ((groupedRowsAll_perm rows).filterMap (·.isbn)).mem_iff
  rcases mem_aggregate_iff.mp ha with ⟨key, hkey, rfl⟩
  refine ⟨hpart1, ?_, ?_, ?_, ?_, ?_⟩
  · -- score_final
    show sumSkipna ((isbnGroup ((normalize_similarity_by_model rows).map (addWeight w)) key).map
      (·.score_weighted)) = _
    rw [isbnGroup_dfw, List.map_map]
    have hsum := sumSkipna_map_eq_sum ((groupedRowsAll rows).filter fun r => r.isbn == some key)
      ((·.score_weighted) ∘ wRowOf rows w)
      (fun r => (normVal rows r.model r.similarity).getD 0 * rowWeight w r.model)
      (fun r hr => wRowOf_score_weighted
        ((rowComplete_iff.mp (hcomplete r (List.mem_filter.mp hr).1)).2.2.2.2))
    rw [hsum]
    exact ((groupedRowsAll_perm rows).filter _ |>.map _).sum_eq
  · -- models_contributing
    show dedupSortStr ((isbnGroup ((normalize_similarity_by_model rows).map (addWeight w)) key).map
      (·.model)) = _
    apply dedupSortStr_ext
    intro x
    rw [isbnGroup_dfw, List.map_map]
    rw [show ((fun r : WRow => r.model) ∘ wRowOf rows w) = (fun r : Row => r.model) from rfl]
    exact (((groupedRowsAll_perm rows).filter _).map _).mem_iff
  · -- title
    show firstSkipna ((isbnGroup ((normalize_similarity_by_model rows).map (addWeight w)) key).map
      (·.title)) = _
    rw [isbnGroup_dfw]
    unfold firstSkipna
    rw [List.map_map, findSome?_map]
    rw [show (fun r : Row => id ((((fun x => x.title) ∘ wRowOf rows w)) r)) =
      (fun r : Row => r.title) from rfl]
    rw [findSome?_eq_head?_bind _ _ (fun r hr =>
      (rowComplete_iff.mp (hcomplete r (List.mem_filter.mp hr).1)).1)]
    rw [head?_filter]
    rfl
  · -- author
    show firstSkipna ((isbnGroup ((normalize_similarity_by_model rows).map (addWeight w)) key).map
      (·.author)) = _
    rw [isbnGroup_dfw]
    unfold firstSkipna
    rw [List.map_map, findSome?_map]
    rw [show (fun r : Row => id ((((fun x => x.author) ∘ wRowOf rows w)) r)) =
      (fun r : Row => r.author) from rfl]
    rw [findSome?_eq_head?_bind _ _ (fun r hr =>
      (rowComplete_iff.mp (hcomplete r (List.mem_filter.mp hr).1)).2.1)]
    rw [head?_filter]
    rfl
  · -- description
    show firstSkipna ((isbnGroup ((normalize_similarity_by_model rows).map (addWeight w)) key).map
      (·.description)) = _
    rw [isbnGroup_dfw]
    unfold firstSkipna
    rw [List.map_map, findSome?_map]
    rw [show (fun r : Row => id ((((fun x => x.description) ∘ wRowOf rows w)) r)) =
      (fun r : Row => r.description) from rfl]
    rw [findSome?_eq_head?_bind _ _ (fun r hr =>
      (rowComplete_iff.mp (hcomplete r (List.mem_filter.mp hr).1)).2.2.1)]
    rw [head?_filter]
    rfl

/-- Claim C1 counterexample: two sources configured in the order `b`, `a`
(source-iteration order), both recommending isbn `X`.  The claim says the
descriptive fields come from the first contribution in source-iteration
order, i.e. title `TB` from source `b`; the code's normalization step
regroups the table by sorted model name, so the aggregation sees source
`a`'s row first and the returned title is `TA`. -/
theorem claim_C1_counterexample :
    get_ensemble_recommendations
      (fun u => if u = "ub"
        then .jlist [⟨some "TB", some "ab", some "db", some "X", some 1⟩]
        else .jlist [⟨some "TA", some "aa", some "da", some "X", some 2⟩])
      [("b", "ub"), ("a", "ua")] 10 none =
      .ok [⟨"X", some "TA", some "aa", some "da", 1, ["a", "b"]⟩] := by
  with_unfolding_all rfl

theorem claim_C1_witness :
    (aggRowFor ((normalize_similarity_by_model
        [⟨some "T2", some "a2", some "d2", some "X", some 5, "s2"⟩,
          ⟨some "T1", some "a1", some "d1", some "X", some 7, "s1"⟩]).map
        (addWeight [("s1", 1 / 2), ("s2", 1 / 2)])) "X").title = some "T1" := by
  have h := claim_C1_aggregation
    [⟨some "T2", some "a2", some "d2", some "X", some 5, "s2"⟩,
      ⟨some "T1", some "a1", some "d1", some "X", some 7, "s1"⟩]
    [("s1", 1 / 2), ("s2", 1 / 2)] (by decide)
    (aggRowFor ((normalize_similarity_by_model
      [⟨some "T2", some "a2", some "d2", some "X", some 5, "s2"⟩,
        ⟨some "T1", some "a1", some "d1", some "X", some 7, "s1"⟩]).map
      (addWeight [("s1", 1 / 2), ("s2", 1 / 2)])) "X")
    (by with_unfolding_all decide)
  exact h.2.2.2.1.trans (by with_unfolding_all rfl)

/-! ## Claim C8 — Scenario A -/

/-- Claim C8 (Scenario A): two sources of weight `0.5`; `S1` answers `X`
at raw score `10` and `Y` at raw score `0`, `S2` answers only `X` at raw
score `5`.  `X` normalizes to `1.0` in both sources, so
`score_final(X) = 0.5 + 0.5 = 1.0` with `models_contributing = [S1, S2]`;
`Y` normalizes to `0.0`; the ranked output is `[X, Y]`. -/
theorem claim_C8_scenario_A :
    get_ensemble_recommendations
      (fun u => if u = "u1"
        then .jlist [⟨some "tx1", some "ax1", some "dx1", some "X", some 10⟩,
          ⟨some "ty", some "ay", some "dy", some "Y", some 0⟩]
        else .jlist [⟨some "tx2", some "ax2", some "dx2", some "X", some 5⟩])
      [("S1", "u1"), ("S2", "u2")] 10 (some [("S1", 1 / 2), ("S2", 1 / 2)]) =
      .ok [⟨"X", some "tx1", some "ax1", some "dx1", 1, ["S1", "S2"]⟩,
        ⟨"Y", some "ty", some "ay", some "dy", 0, ["S1"]⟩] := by
  with_unfolding_all rfl
